import Mathlib

/-!
Verification of the memvid CLI orchestrator (`src/bin/memvid.rs`) against its
natural-language specification.  The Rust source is shallowly embedded below:
pure functions become Lean functions, `f32` scores become exact rationals (the
claims under study concern ordering, deduplication and determinism, not
rounding), `u64`/`usize` become `Nat` (the code does no wrapping arithmetic on
them), and fallible code returns `Except`/`Option`.  The two `HashMap`s inside
`merge_results_rrf` are modelled by their lookup functions; the unspecified
iteration order of `scores.into_iter()` is made an explicit parameter `ord`,
constrained by `ValidOrder` to be some enumeration of the map's key set.
-/

/-- Structure `memvid_core::SearchHit` as consumed by the CLI: frame id, optional title,
snippet text, optional relevance score. -/
structure SearchHit where
  frame_id : Nat
  title : Option String := none
  text : String := ""
  score : Option ℚ := none
deriving DecidableEq

/-- Constant `K: f32 = 60.0` — the RRF constant from `merge_results_rrf`. -/
def K : ℚ := 60

/-- Running total of `1.0 / (K + (rank + 1) as f32)` contributions accumulated
by the loop `for (rank, hit) in hits.iter().enumerate()` into
`*scores.entry(hit.frame_id).or_insert(0.0) += rrf_score`, starting at a given
rank offset. -/
def rrfContribFrom (hits : List SearchHit) (id : Nat) (rank : Nat) : ℚ :=
  match hits with
  | [] => 0
  | h :: rest =>
    (if h.frame_id = id then 1 / (K + (rank : ℚ) + 1) else 0) +
      rrfContribFrom rest id (rank + 1)

/-- One list's total RRF contribution for a frame id (`enumerate` starts at 0). -/
def rrfContrib (hits : List SearchHit) (id : Nat) : ℚ :=
  rrfContribFrom hits id 0

/-- The value stored in the `scores: HashMap<u64, f32>` for a key: the sum of
the lexical-loop and vector-loop contributions. -/
def fusedScore (lex vec : List SearchHit) (id : Nat) : ℚ :=
  rrfContrib lex id + rrfContrib vec id

/-- First hit with the given frame id in a list. -/
def findHit (id : Nat) : List SearchHit → Option SearchHit
  | [] => none
  | h :: rest => if h.frame_id = id then some h else findHit id rest

/-- The value stored in `hits_by_id: HashMap<u64, SearchHit>` for a key:
`or_insert_with(|| hit.clone())` keeps the first hit seen for the id, and the
lexical list is scanned before the vector list. -/
def firstHit (lex vec : List SearchHit) (id : Nat) : Option SearchHit :=
  findHit id (lex ++ vec)

/-- Variant of `firstHit` with a placeholder carrying the looked-up id, convenient for
stating lemmas; never reached on keys that are actually in the map. -/
def hitFor (lex vec : List SearchHit) (id : Nat) : SearchHit :=
  (firstHit lex vec id).getD { frame_id := id }

/-- The key set of the `scores` map: the distinct frame ids occurring in
either input list. -/
def fusedIds (lex vec : List SearchHit) : List Nat :=
  ((lex ++ vec).map SearchHit.frame_id).dedup

/-- Predicate: `ord` is a possible iteration order of `scores.into_iter()`: an
enumeration, in some unspecified order, of the map's key set. -/
def ValidOrder (lex vec : List SearchHit) (ord : List Nat) : Prop :=
  ord.Perm (fusedIds lex vec)

instance (lex vec : List SearchHit) (ord : List Nat) : Decidable (ValidOrder lex vec ord) :=
  inferInstanceAs (Decidable (ord.Perm (fusedIds lex vec)))

/-- The comparator `|a, b| b.1.partial_cmp(&a.1)` used on `(u64, f32)` pairs:
descending by score.  No score produced by the fusion is NaN, so on the values
actually sorted this is a total preorder. -/
def rrfGe (a b : Nat × ℚ) : Prop := b.2 ≤ a.2

instance : DecidableRel rrfGe := fun a b => inferInstanceAs (Decidable (b.2 ≤ a.2))

instance : IsTotal (Nat × ℚ) rrfGe := ⟨fun a b => le_total b.2 a.2⟩

instance : IsTrans (Nat × ℚ) rrfGe :=
  ⟨fun _ _ _ hab hbc => le_trans hbc hab⟩

/-- The sort `scored.sort_by(|a, b| b.1.partial_cmp(&a.1).unwrap_or(Equal))`:
`sort_by` is a stable sort, and the unique stable sort for a total preorder is
insertion sort inserting each element before the first element it is `rrfGe`
to. -/
def sortDesc (l : List (Nat × ℚ)) : List (Nat × ℚ) :=
  List.insertionSort rrfGe l

/-- The final `filter_map` of `merge_results_rrf`: walk the sorted `(id,
score)` pairs, skip ids already emitted (`seen: HashSet`), look the id up in
`hits_by_id` (`remove` behaves as lookup here: the keys of `scored` are
distinct, being keys of a `HashMap`), and emit the stored hit with its score
replaced by the fused score. -/
def takeHits (lex vec : List SearchHit) : List (Nat × ℚ) → List Nat → List SearchHit
  | [], _ => []
  | (id, s) :: rest, seen =>
    if id ∈ seen then takeHits lex vec rest seen
    else
      match firstHit lex vec id with
      | some h => { h with score := some s } :: takeHits lex vec rest (id :: seen)
      | none => takeHits lex vec rest (id :: seen)

/-- Function `merge_results_rrf(lex_hits, vec_hits, top_k)` with the hash-map iteration
order `ord` made explicit. -/
def merge_results_rrf (lex vec : List SearchHit) (top_k : Nat) (ord : List Nat) :
    List SearchHit :=
  let scored := ord.map (fun id => (id, fusedScore lex vec id))
  (takeHits lex vec (sortDesc scored) []).take top_k

/-- The score a fused hit carries (every emitted hit has `score = Some _`). -/
def scoreD (h : SearchHit) : ℚ := h.score.getD 0

/-- Index of the first occurrence of a frame id when scanning the lexical list
and then the vector list — the "first encountered" order of the claims. -/
def firstSeenIndex (lex vec : List SearchHit) (id : Nat) : Nat :=
  ((lex ++ vec).map SearchHit.frame_id).indexOf id

/-- Claim C1 as stated: for every pair of hit lists, every `top_k` and every
possible iteration order, the fused output is sorted by descending fused
score, and exact ties are ordered by first-seen position (lexical scan first,
then vector scan). -/
def C1Statement : Prop :=
  ∀ lex vec top_k ord, ValidOrder lex vec ord →
    (merge_results_rrf lex vec top_k ord).Pairwise
      (fun a b => scoreD b ≤ scoreD a ∧
        (scoreD a = scoreD b →
          firstSeenIndex lex vec a.frame_id < firstSeenIndex lex vec b.frame_id))

/-- Claim C2 as stated: the merge is a pure function of its arguments — its
output does not depend on the hash-map iteration order. -/
def C2Statement : Prop :=
  ∀ lex vec top_k ord₁ ord₂, ValidOrder lex vec ord₁ → ValidOrder lex vec ord₂ →
    merge_results_rrf lex vec top_k ord₁ = merge_results_rrf lex vec top_k ord₂

/-- Claim C9 as stated: fusing two empty lists yields the empty list, and
fusing any list `A` with an empty second list yields `A`'s hits in their
original relative order truncated to the first `top_k`. -/
def C9Statement : Prop :=
  (∀ top_k ord, ValidOrder [] [] ord → merge_results_rrf [] [] top_k ord = []) ∧
  (∀ A top_k ord, ValidOrder A [] ord →
    (merge_results_rrf A [] top_k ord).map SearchHit.frame_id =
      (A.map SearchHit.frame_id).take top_k)

/-- Accumulated state of the `save` argument loop in `main`: title, tags, the
`--stdin` flag, and the content collected so far. -/
structure SaveScanState where
  title : Option String
  tags : List (String × String)
  use_stdin : Bool
  content : String
deriving DecidableEq

/-- Rust `args[i + 1].split_once('=')`: split at the first `=`; `none` when
there is no `=`. -/
def splitOnceEq (s : String) : Option (String × String) :=
  match s.splitOn ("=") with
  | [] => none
  | [_] => none
  | k :: rest => some (k, String.intercalate ("=") rest)

/-- The flag tokens recognised by the `save` loop's `match`. -/
def isSaveFlag (s : String) : Bool :=
  s == "--title" || s == "-t" || s == "--tag" || s == "--stdin"

/-- The `save` argument loop of `main` (lines 614-645): scan tokens, consuming
`--title`/`-t` and `--tag` together with their value tokens and the bare
`--stdin`; the first other token ends the loop with that token and every token
after it joined by single spaces as the content.  A flag missing its value is
a usage error (`process::exit(1)`), modelled as `Except.error`; a `--tag`
value without `=` is silently dropped. -/
def saveLoop : List String → SaveScanState → Except String SaveScanState
  | [], st => .ok st
  | a :: rest, st =>
    if a == "--title" || a == "-t" then
      match rest with
      | v :: rest2 => saveLoop rest2 { st with title := some v }
      | [] => .error ("Missing title value")
    else if a == "--tag" then
      match rest with
      | v :: rest2 => saveLoop rest2 { st with tags := st.tags ++ (splitOnceEq v).toList }
      | [] => .error ("Missing tag value")
    else if a == "--stdin" then
      saveLoop rest { st with use_stdin := true }
    else
      .ok { st with content := String.intercalate (" ") (a :: rest) }

/-- Initial state of the save loop. -/
def saveInit : SaveScanState :=
  { title := none, tags := [], use_stdin := false, content := "" }

/-- Rust `str::trim`: drop leading and trailing whitespace (the claims only
exercise ASCII whitespace, where `Char.isWhitespace` agrees with Rust). -/
def rustTrim (s : String) : String :=
  String.mk (((s.data.dropWhile Char.isWhitespace).reverse.dropWhile
    Char.isWhitespace).reverse)

/-- The remainder of `main`'s save branch: run the loop, then — when
`--stdin` was given — `io::stdin().read_to_string(&mut content)`, which
APPENDS the standard input to the already-collected `content`, and finally
reject empty or whitespace-only content (`process::exit(1)`). -/
def savePrepare (tokens : List String) (stdinText : String) : Except String SaveScanState :=
  match saveLoop tokens saveInit with
  | .error e => .error e
  | .ok st =>
    if (rustTrim (if st.use_stdin then st.content ++ stdinText else st.content)).isEmpty then
      .error ("No content provided")
    else
      .ok { st with content := if st.use_stdin then st.content ++ stdinText else st.content }

/-- Claim C4 as stated: with `--stdin`, the saved content equals exactly the
standard-input text, positional content being overridden, not combined. -/
def C4Statement : Prop :=
  ∀ tokens stdinText st, savePrepare tokens stdinText = .ok st →
    st.use_stdin = true → st.content = stdinText

/-- A well-formed run of `save` flags, as consumed by the head of the save
loop before the first non-flag token: any sequence of `--title v`, `-t v`,
`--tag v` and `--stdin`. -/
inductive SaveFlagRun : List String → Prop
  | nil : SaveFlagRun []
  | title (v : String) (p : List String) : SaveFlagRun p → SaveFlagRun ("--title" :: v :: p)
  | titleShort (v : String) (p : List String) : SaveFlagRun p → SaveFlagRun ("-t" :: v :: p)
  | tag (v : String) (p : List String) : SaveFlagRun p → SaveFlagRun ("--tag" :: v :: p)
  | stdinFlag (p : List String) : SaveFlagRun p → SaveFlagRun ("--stdin" :: p)

/-- Rust `str::replacen(pat, to, 1)` for a single-character pattern: replace
the first occurrence, anywhere in the string, keeping everything else. -/
def replacen1 (p : List Char) (c : Char) (sub : List Char) : List Char :=
  match p with
  | [] => []
  | a :: rest => if a = c then sub ++ rest else a :: replacen1 rest c sub

/-- The tilde expansion used twice in the source:
`if p.starts_with('~') { p.replacen('~', &home, 1) } else { p }`. -/
def expandTilde (p home : List Char) : List Char :=
  if p.head? = some '~' then replacen1 p '~' home else p

/-- Rust `env::var("HOME").unwrap_or_else(|_| ".".to_string())`. -/
def homeOr (home : Option (List Char)) : List Char := home.getD ['.']

/-- Rust `PathBuf::from(home).join(".memvid").join("claude.mv2")`, with `join`
modelled as `/`-separated concatenation. -/
def defaultStorePath (home : Option (List Char)) : List Char :=
  homeOr home ++ ('/' :: ".memvid".toList) ++ ('/' :: "claude.mv2".toList)

/-- Function `get_memory_path()`: the `--memory` override (already expanded by
`main`) wins, else the `MEMVID_MEMORY` environment variable with leading-tilde
expansion, else the default path. -/
def get_memory_path (overrideVal envVal home : Option (List Char)) : List Char :=
  match overrideVal with
  | some p => p
  | none =>
    match envVal with
    | some p => expandTilde p (homeOr home)
    | none => defaultStorePath home

/-- The whole resolution pipeline: `main` expands the `--memory` value's
leading tilde before storing it in `MEMORY_PATH_OVERRIDE`, and
`get_memory_path` does the rest. -/
def resolveStorePath (cliOverride envVal home : Option (List Char)) : List Char :=
  get_memory_path (cliOverride.map (fun p => expandTilde p (homeOr home))) envVal home

/-- The spec's path-resolution contract (§4.1), written from its words, as the
refinement target for claim C6: the highest-priority source present
(override, then environment variable, then `<home>/.memvid/claude.mv2`), a
value beginning with `~` having only that leading occurrence replaced by the
home directory, with `.` standing in when the home directory is unknown. -/
def specResolveStorePath (cliOverride envVal home : Option (List Char)) : List Char :=
  match cliOverride, envVal with
  | some p, _ => if p.head? = some '~' then home.getD ['.'] ++ p.tail else p
  | none, some p => if p.head? = some '~' then home.getD ['.'] ++ p.tail else p
  | none, none => home.getD ['.'] ++ ('/' :: ".memvid".toList) ++ ('/' :: "claude.mv2".toList)

/-- The slice of a stored frame's metadata read by the `list` and `inspect`
commands (fields those commands never touch are omitted). -/
structure Frame where
  title : Option (List Char) := none
  search_text : Option (List Char) := none
  has_mime : Bool := false
deriving DecidableEq

/-- Modelled from the spec: the store consumed through `memvid_core` (its
implementation is not under `src/`) — §6 specifies `record_by_id(id)`, which
"fails with a not-found error for out-of-range ids", and `stats()`, whose
record count drives the `list` range. -/
structure StoreModel where
  frame_count : Nat
  frame_by_id : Nat → Except String Frame

/-- Modelled from the spec: a store holding exactly the given records, with
`record_by_id` failing with a not-found error outside `0..frames.length`. -/
def storeOfFrames (frames : List Frame) : StoreModel where
  frame_count := frames.length
  frame_by_id := fun id =>
    match frames.get? id with
    | some f => .ok f
    | none => .error ("frame not found")

/-- A store containing exactly `n` records: `stats` reports `n` and
`record_by_id` succeeds exactly on ids below `n`. -/
def ExactRecords (s : StoreModel) (n : Nat) : Prop :=
  s.frame_count = n ∧ ∀ id, (s.frame_by_id id).isOk = true ↔ id < n

/-- Rust `char::len_utf8`. -/
def charSize (c : Char) : Nat :=
  if c.val < 0x80 then 1 else if c.val < 0x800 then 2
  else if c.val < 0x10000 then 3 else 4

/-- Byte length of a string (Rust `str::len`). -/
def byteLen (cs : List Char) : Nat := (cs.map charSize).sum

/-- Rust slicing `&s[..n]`: the prefix of `n` bytes when `n` is a character
boundary within the string, and a panic (`none`) otherwise. -/
def sliceTo : List Char → Nat → Option (List Char)
  | _, 0 => some []
  | [], _ + 1 => none
  | c :: cs, n =>
    if charSize c ≤ n then (sliceTo cs (n - charSize c)).map (fun t => c :: t) else none

/-- A Rust panic observed by the embedding. -/
inductive Panic where
  | sliceNotCharBoundary
deriving DecidableEq

/-- The truncation
`if title_preview.len() > 40 { &title_preview[..40] } else { title_preview }`
from `cmd_list_recent`. -/
def titleShort (t : List Char) : Option (List Char) :=
  if byteLen t > 40 then sliceTo t 40 else some t

/-- One line printed by `cmd_list_recent` for a frame. -/
inductive ListLine where
  | entry (id : Nat) (hasSearch hasMime : Bool) (titleShown : List Char)
  | errorLine (id : Nat) (err : String)
deriving DecidableEq

/-- The `Ok(frame)` arm of the `list` loop: presence flags plus the truncated
title (`(no title)` when absent); slicing the title at byte 40 can panic. -/
def renderListLine (i : Nat) (f : Frame) : Except Panic ListLine :=
  match titleShort (f.title.getD ("(no title)").toList) with
  | some ts => .ok (.entry i f.search_text.isSome f.has_mime ts)
  | none => .error .sliceNotCharBoundary

/-- The `for i in start..total` loop of `cmd_list_recent`: a store error for a
record is printed as an error line and the scan continues; a panic aborts the
whole listing. -/
def listFrames (s : StoreModel) : List Nat → Except Panic (List ListLine)
  | [] => .ok []
  | i :: rest =>
    match s.frame_by_id i with
    | .ok f =>
      match renderListLine i f with
      | .ok line => (listFrames s rest).map (fun ls => line :: ls)
      | .error p => .error p
    | .error e => (listFrames s rest).map (fun ls => ListLine.errorLine i e :: ls)

/-- The range scanned by `cmd_list_recent`:
`let start = if total > count { total - count } else { 0 }`, then
`start..total`. -/
def listRange (total count : Nat) : List Nat :=
  List.range' (if total > count then total - count else 0)
    (total - (if total > count then total - count else 0))

/-- Function `cmd_list_recent(count)` on an existing store. -/
def cmd_list_recent (s : StoreModel) (count : Nat) : Except Panic (List ListLine) :=
  listFrames s (listRange s.frame_count count)

/-- The preview `if text.len() > 100 { &text[..100] } else { text }` from
`cmd_inspect`. -/
def textPreview (t : List Char) : Option (List Char) :=
  if byteLen t > 100 then sliceTo t 100 else some t

/-- What `cmd_inspect` reports for a frame id. -/
inductive InspectReport where
  | shown (id : Nat) (f : Frame)
  | notFound (id : Nat) (err : String)
deriving DecidableEq

/-- Function `cmd_inspect(frame_id)` on an existing store: print the frame's
details (possibly panicking on the search-text preview slice), or print the
store error; both arms return `Ok(())`. -/
def cmd_inspect (s : StoreModel) (fid : Nat) : Except Panic InspectReport :=
  match s.frame_by_id fid with
  | .ok f =>
    match f.search_text with
    | some t =>
      match textPreview t with
      | some _ => .ok (.shown fid f)
      | none => .error .sliceNotCharBoundary
    | none => .ok (.shown fid f)
  | .error e => .ok (.notFound fid e)

/-- The process exit code of `inspect` on an existing store: `cmd_inspect`
returns `Ok(())` in both arms, so `main`'s `if let Err(e) = result` never
fires and — absent a panic — the process exits 0. -/
def inspectExitCode (s : StoreModel) (fid : Nat) : Except Panic Nat :=
  (cmd_inspect s fid).map (fun _ => 0)

/-- Claim C3 as stated: on a store with exactly 10 records, `inspect 999`
reports a not-found error for the frame, does not crash, and the process
exits with code 1. -/
def C3Statement : Prop :=
  ∀ s : StoreModel, ExactRecords s 10 →
    (∃ e, cmd_inspect s 999 = .ok (.notFound 999 e)) ∧ inspectExitCode s 999 = .ok 1

/-- A concrete store with exactly 10 records. -/
def store10 : StoreModel := storeOfFrames (List.replicate 10 {})

/-- A title of 41 UTF-8 bytes whose byte 40 falls inside a two-byte character:
39 ASCII characters followed by `é`. -/
def badTitle : List Char := List.replicate 39 'a' ++ ['é']

/-- A store whose single frame carries `badTitle`. -/
def badListStore : StoreModel := storeOfFrames [{ title := some badTitle }]

/-- A store mutation issued by `cmd_embed_all`. -/
inductive StoreCall (α : Type) where
  | addEmbeddings (batch : List (Nat × α))
  | commit
deriving DecidableEq

/-- The observable outcome of one `cmd_embed_all` run: the frame ids whose
embedding failed (reported as warnings) and the store calls issued. -/
structure EmbedRun (α : Type) where
  failures : List Nat
  calls : List (StoreCall α)
deriving DecidableEq

/-- The embedding loop of `cmd_embed_all` (lines 504-524): call the provider
on each pending task in order, collecting successes and recording failures
with the offending frame id (the interleaved progress printing touches only
the console and is omitted). -/
def embedLoop (provider : Nat → String → Option α) :
    List (Nat × String) → List (Nat × α) × List Nat
  | [] => ([], [])
  | t :: rest =>
    match provider t.1 t.2 with
    | some e => ((t.1, e) :: (embedLoop provider rest).1, (embedLoop provider rest).2)
    | none => ((embedLoop provider rest).1, t.1 :: (embedLoop provider rest).2)

/-- Function `cmd_embed_all` from the point where the pending tasks are known
(lines 491-541): zero pending tasks or zero generated embeddings end the run
with no store call at all; otherwise one `add_embeddings` batch of all
successes is submitted, followed by exactly one `commit`. -/
def cmd_embed_all_run (provider : Nat → String → Option α)
    (tasks : List (Nat × String)) : EmbedRun α :=
  if tasks.isEmpty then { failures := [], calls := [] }
  else if (embedLoop provider tasks).1.isEmpty then
    { failures := (embedLoop provider tasks).2, calls := [] }
  else
    { failures := (embedLoop provider tasks).2,
      calls := [StoreCall.addEmbeddings (embedLoop provider tasks).1, StoreCall.commit] }

/-- The successful (frame id, embedding) pairs of a run, in task order. -/
def succBatch (provider : Nat → String → Option α) (tasks : List (Nat × String)) :
    List (Nat × α) :=
  tasks.filterMap (fun t => (provider t.1 t.2).map (fun e => (t.1, e)))

/-- The ids of the tasks whose provider call failed, in task order. -/
def failedIds (provider : Nat → String → Option α) (tasks : List (Nat × String)) :
    List Nat :=
  (tasks.filter (fun t => (provider t.1 t.2).isNone)).map Prod.fst

/-- Claim C7 as stated: whenever the provider fails on exactly one of the
pending tasks, the run reports that frame id, submits all other embeddings as
one single batch, and issues exactly one commit after the batch write. -/
def C7Statement : Prop :=
  ∀ (α : Type) (provider : Nat → String → Option α) (tasks : List (Nat × String)),
    tasks.countP (fun t => (provider t.1 t.2).isNone) = 1 →
    (cmd_embed_all_run provider tasks).failures = failedIds provider tasks ∧
    (cmd_embed_all_run provider tasks).calls =
      [StoreCall.addEmbeddings (succBatch provider tasks), StoreCall.commit]

/-- Decidable equality for `Except`, used to evaluate the embedded commands
on concrete inputs. -/
instance {ε α : Type} [DecidableEq ε] [DecidableEq α] : DecidableEq (Except ε α) := fun a b =>
  match a, b with
  | .ok x, .ok y =>
    if h : x = y then isTrue (by rw [h]) else isFalse (fun hc => h (Except.ok.inj hc))
  | .error x, .error y =>
    if h : x = y then isTrue (by rw [h]) else isFalse (fun hc => h (Except.error.inj hc))
  | .ok _, .error _ => isFalse (fun hc => Except.noConfusion hc)
  | .error _, .ok _ => isFalse (fun hc => Except.noConfusion hc)

theorem findHit_isSome (id : Nat) (l : List SearchHit)
    (h : id ∈ l.map SearchHit.frame_id) : ∃ x, findHit id l = some x := by
  induction l with
  | nil => simp at h
  | cons a rest ih =>
    by_cases ha : a.frame_id = id
    · exact ⟨a, by simp [findHit, ha]⟩
    · have : id ∈ rest.map SearchHit.frame_id := by
        rcases List.mem_map.mp h with ⟨x, hx, hfx⟩
        rcases List.mem_cons.mp hx with hx | hx
        · exact absurd (hx ▸ hfx) ha
        · exact List.mem_map.mpr ⟨x, hx, hfx⟩
      rcases ih this with ⟨x, hx⟩
      exact ⟨x, by simp [findHit, ha, hx]⟩

theorem findHit_frame_id (id : Nat) (l : List SearchHit) (x : SearchHit)
    (h : findHit id l = some x) : x.frame_id = id := by
  induction l with
  | nil => simp [findHit] at h
  | cons a rest ih =>
    by_cases ha : a.frame_id = id
    · simp [findHit, ha] at h
      rw [← h, ha]
    · rw [findHit, if_neg ha] at h
      exact ih h

theorem findHit_self (l : List SearchHit) (hnd : (l.map SearchHit.frame_id).Nodup) :
    ∀ h ∈ l, findHit h.frame_id l = some h := by
  induction l with
  | nil => intro h hm; simp at hm
  | cons a rest ih =>
    intro h hm
    rw [List.map_cons, List.nodup_cons] at hnd
    rcases List.mem_cons.mp hm with hm | hm
    · simp [findHit, hm]
    · have hne : a.frame_id ≠ h.frame_id := by
        intro he
        exact hnd.1 (he ▸ List.mem_map_of_mem SearchHit.frame_id hm)
      rw [findHit, if_neg hne]
      exact ih hnd.2 h hm

theorem hitFor_frame_id (lex vec : List SearchHit) (id : Nat) :
    (hitFor lex vec id).frame_id = id := by
  unfold hitFor
  cases hf : firstHit lex vec id with
  | none => rfl
  | some x => exact findHit_frame_id id (lex ++ vec) x hf

theorem scoreD_set_score (h : SearchHit) (s : ℚ) :
    scoreD { h with score := some s } = s := rfl

theorem takeHits_score_mem (lex vec : List SearchHit) (l : List (Nat × ℚ)) :
    ∀ (seen : List Nat), ∀ y ∈ takeHits lex vec l seen, ∃ p ∈ l, y.score = some p.2 := by
  induction l with
  | nil => intro seen y hy; simp [takeHits] at hy
  | cons q rest ih =>
    intro seen y hy
    rw [show q = (q.1, q.2) from rfl, takeHits] at hy
    by_cases hq : q.1 ∈ seen
    · rw [if_pos hq] at hy
      rcases ih seen y hy with ⟨p, hp, hs⟩
      exact ⟨p, List.mem_cons_of_mem _ hp, hs⟩
    · rw [if_neg hq] at hy
      cases hf : firstHit lex vec q.1 with
      | none =>
        rw [hf] at hy
        rcases ih (q.1 :: seen) y hy with ⟨p, hp, hs⟩
        exact ⟨p, List.mem_cons_of_mem _ hp, hs⟩
      | some x =>
        rw [hf] at hy
        rcases List.mem_cons.mp hy with hy | hy
        · exact ⟨q, List.mem_cons_self _ _, by rw [hy]⟩
        · rcases ih (q.1 :: seen) y hy with ⟨p, hp, hs⟩
          exact ⟨p, List.mem_cons_of_mem _ hp, hs⟩

theorem takeHits_pairwise (lex vec : List SearchHit) (l : List (Nat × ℚ)) :
    ∀ (seen : List Nat), l.Pairwise rrfGe →
      (takeHits lex vec l seen).Pairwise (fun a b => scoreD b ≤ scoreD a) := by
  induction l with
  | nil => intro seen _; simp [takeHits]
  | cons q rest ih =>
    intro seen hp
    rcases List.pairwise_cons.mp hp with ⟨hhead, htail⟩
    rw [show q = (q.1, q.2) from rfl, takeHits]
    by_cases hq : q.1 ∈ seen
    · rw [if_pos hq]; exact ih seen htail
    · rw [if_neg hq]
      cases hf : firstHit lex vec q.1 with
      | none => exact ih (q.1 :: seen) htail
      | some x =>
        refine List.pairwise_cons.mpr ⟨?_, ih (q.1 :: seen) htail⟩
        intro y hy
        rcases takeHits_score_mem lex vec rest (q.1 :: seen) y hy with ⟨p, hp2, hs⟩
        have : scoreD y = p.2 := by rw [scoreD, hs]; rfl
        rw [this, scoreD_set_score]
        exact hhead p hp2

theorem takeHits_ids (lex vec : List SearchHit) (l : List (Nat × ℚ)) :
    ∀ (seen : List Nat),
      ((takeHits lex vec l seen).map SearchHit.frame_id).Nodup ∧
      ∀ y ∈ takeHits lex vec l seen, y.frame_id ∉ seen := by
  induction l with
  | nil => intro seen; simp [takeHits]
  | cons q rest ih =>
    intro seen
    rw [show q = (q.1, q.2) from rfl, takeHits]
    by_cases hq : q.1 ∈ seen
    · rw [if_pos hq]; exact ih seen
    · rw [if_neg hq]
      cases hf : firstHit lex vec q.1 with
      | none =>
        refine ⟨(ih (q.1 :: seen)).1, fun y hy => ?_⟩
        have := (ih (q.1 :: seen)).2 y hy
        exact fun hc => this (List.mem_cons_of_mem _ hc)
      | some x =>
        have hxid : x.frame_id = q.1 := findHit_frame_id q.1 (lex ++ vec) x hf
        constructor
        · rw [List.map_cons, List.nodup_cons]
          constructor
          · intro hc
            rcases List.mem_map.mp hc with ⟨y, hy, hyid⟩
            have := (ih (q.1 :: seen)).2 y hy
            rw [hyid, hxid] at this
            exact this (List.mem_cons_self _ _)
          · exact (ih (q.1 :: seen)).1
        · intro y hy
          rcases List.mem_cons.mp hy with hy | hy
          · rw [hy]
            show x.frame_id ∉ seen
            rw [hxid]; exact hq
          · have := (ih (q.1 :: seen)).2 y hy
            exact fun hc => this (List.mem_cons_of_mem _ hc)

theorem takeHits_length_le (lex vec : List SearchHit) (l : List (Nat × ℚ)) :
    ∀ (seen : List Nat), (takeHits lex vec l seen).length ≤ l.length := by
  induction l with
  | nil => intro seen; simp [takeHits]
  | cons q rest ih =>
    intro seen
    rw [show q = (q.1, q.2) from rfl, takeHits]
    by_cases hq : q.1 ∈ seen
    · rw [if_pos hq]
      exact le_trans (ih seen) (Nat.le_succ _)
    · rw [if_neg hq]
      cases hf : firstHit lex vec q.1 with
      | none => exact le_trans (ih (q.1 :: seen)) (Nat.le_succ _)
      | some x => exact Nat.succ_le_succ (ih (q.1 :: seen))

theorem takeHits_eq_map (lex vec : List SearchHit) (l : List (Nat × ℚ)) :
    ∀ (seen : List Nat), (l.map Prod.fst).Nodup → (∀ p ∈ l, p.1 ∉ seen) →
      (∀ p ∈ l, p.1 ∈ (lex ++ vec).map SearchHit.frame_id) →
      takeHits lex vec l seen =
        l.map (fun p => { hitFor lex vec p.1 with score := some p.2 }) := by
  induction l with
  | nil => intro seen _ _ _; simp [takeHits]
  | cons q rest ih =>
    intro seen hnd hseen hall
    rw [List.map_cons, List.nodup_cons] at hnd
    have hq : q.1 ∉ seen := hseen _ (List.mem_cons_self _ _)
    rcases findHit_isSome q.1 (lex ++ vec) (hall _ (List.mem_cons_self _ _)) with ⟨x, hx⟩
    have hfh : firstHit lex vec q.1 = some x := hx
    rw [show q = (q.1, q.2) from rfl, takeHits, if_neg hq, hfh]
    have hrec := ih (q.1 :: seen) hnd.2
      (fun p hp hc => by
        rcases List.mem_cons.mp hc with hc | hc
        · exact hnd.1 (hc ▸ List.mem_map_of_mem Prod.fst hp)
        · exact hseen p (List.mem_cons_of_mem _ hp) hc)
      (fun p hp => hall p (List.mem_cons_of_mem _ hp))
    rw [hrec, List.map_cons]
    have : hitFor lex vec q.1 = x := by rw [hitFor, hfh]; rfl
    rw [this]

theorem merge_eval_tie_c1 :
    merge_results_rrf [{ frame_id := 1 }] [{ frame_id := 2 }] 2 [2, 1] =
      [{ frame_id := 2, score := some (1 / 61) },
       { frame_id := 1, score := some (1 / 61) }] := by
  norm_num [merge_results_rrf, sortDesc, List.insertionSort, List.orderedInsert,
    takeHits, firstHit, findHit, fusedScore, rrfContrib, rrfContribFrom, rrfGe, K]

/-- Claim C1 is false on the code: with `lex = [hit 1]`, `vec = [hit 2]`, the
two fused scores tie exactly, and the iteration order `[2, 1]` of the `scores`
hash map puts frame 2 first even though frame 1 was encountered first. -/
theorem c1_counterexample : ¬ C1Statement := by
  intro h
  have h2 := h [{ frame_id := 1 }] [{ frame_id := 2 }] 2 [2, 1] (by decide)
  rw [merge_eval_tie_c1] at h2
  have h3 := (List.pairwise_cons.mp h2).1 _ (List.mem_cons_self _ _)
  have h4 := h3.2 rfl
  exact absurd h4 (by decide)

/-- Claim C1 (amended): the fused output is sorted by descending fused score;
on exact ties the relative order is the hash map's unspecified iteration
order, not necessarily first-seen order. -/
theorem c1_sorted_descending (lex vec : List SearchHit) (top_k : Nat) (ord : List Nat) :
    (merge_results_rrf lex vec top_k ord).Pairwise (fun a b => scoreD b ≤ scoreD a) := by
  unfold merge_results_rrf
  exact (takeHits_pairwise lex vec _ [] (List.sorted_insertionSort rrfGe _)).sublist
    (List.take_sublist _ _)

theorem sortDesc_mem_char (lex vec : List SearchHit) (ord : List Nat) :
    ∀ p ∈ sortDesc (ord.map (fun id => (id, fusedScore lex vec id))),
      p.2 = fusedScore lex vec p.1 ∧ p.1 ∈ ord := by
  intro p hp
  have hp2 : p ∈ ord.map (fun id => (id, fusedScore lex vec id)) :=
    (List.perm_insertionSort rrfGe _).mem_iff.mp hp
  rcases List.mem_map.mp hp2 with ⟨id, hid, rfl⟩
  exact ⟨rfl, hid⟩

theorem sortDesc_fst_ne (lex vec : List SearchHit) (ord : List Nat) (hnd : ord.Nodup) :
    (sortDesc (ord.map (fun id => (id, fusedScore lex vec id)))).Pairwise
      (fun a b => a.1 ≠ b.1) := by
  have h1 : (ord.map (fun id => (id, fusedScore lex vec id))).Pairwise
      (fun a b => a.1 ≠ b.1) :=
    List.Pairwise.map _ (fun _ _ hab => hab) hnd
  exact ((List.perm_insertionSort rrfGe _).pairwise_iff (fun h => h.symm)).mpr h1

theorem sortDesc_strict (lex vec : List SearchHit) (ord : List Nat)
    (hv : ValidOrder lex vec ord)
    (hinj : ∀ a ∈ fusedIds lex vec, ∀ b ∈ fusedIds lex vec, a ≠ b →
      fusedScore lex vec a ≠ fusedScore lex vec b) :
    (sortDesc (ord.map (fun id => (id, fusedScore lex vec id)))).Pairwise
      (fun a b => b.2 < a.2) := by
  have hnd : ord.Nodup := hv.symm.nodup (List.nodup_dedup _)
  have hweak : (sortDesc (ord.map (fun id => (id, fusedScore lex vec id)))).Pairwise rrfGe :=
    List.sorted_insertionSort rrfGe _
  have hne := sortDesc_fst_ne lex vec ord hnd
  refine (hweak.and hne).imp_of_mem ?_
  intro a b ha hb hab
  rcases sortDesc_mem_char lex vec ord a ha with ⟨ha2, ha1⟩
  rcases sortDesc_mem_char lex vec ord b hb with ⟨hb2, hb1⟩
  have hsne : fusedScore lex vec a.1 ≠ fusedScore lex vec b.1 :=
    hinj a.1 (hv.subset ha1) b.1 (hv.subset hb1) hab.2
  refine lt_of_le_of_ne hab.1 ?_
  rw [ha2, hb2]
  exact fun he => hsne (he.symm)

theorem merge_eval_tie_c2a :
    merge_results_rrf [{ frame_id := 3 }] [{ frame_id := 4 }] 2 [3, 4] =
      [{ frame_id := 3, score := some (1 / 61) },
       { frame_id := 4, score := some (1 / 61) }] := by
  norm_num [merge_results_rrf, sortDesc, List.insertionSort, List.orderedInsert,
    takeHits, firstHit, findHit, fusedScore, rrfContrib, rrfContribFrom, rrfGe, K]

theorem merge_eval_tie_c2b :
    merge_results_rrf [{ frame_id := 3 }] [{ frame_id := 4 }] 2 [4, 3] =
      [{ frame_id := 4, score := some (1 / 61) },
       { frame_id := 3, score := some (1 / 61) }] := by
  norm_num [merge_results_rrf, sortDesc, List.insertionSort, List.orderedInsert,
    takeHits, firstHit, findHit, fusedScore, rrfContrib, rrfContribFrom, rrfGe, K]

/-- Claim C2 is false on the code: the two hash maps built by
`merge_results_rrf` are freshly seeded on every call, so two calls on the same
arguments can iterate `scores` in different orders; with `lex = [hit 3]`,
`vec = [hit 4]` the scores tie exactly and the two orders `[3, 4]` and
`[4, 3]` produce different outputs. -/
theorem c2_counterexample : ¬ C2Statement := by
  intro h
  have h2 := h [{ frame_id := 3 }] [{ frame_id := 4 }] 2 [3, 4] [4, 3]
    (by decide) (by decide)
  rw [merge_eval_tie_c2a, merge_eval_tie_c2b] at h2
  exact absurd (congrArg (fun l => l.map SearchHit.frame_id) h2) (by decide)

/-- Claim C2 (amended): the merge is deterministic given the hash-map
iteration order, and whenever no two distinct frame ids have exactly equal
fused scores the output is independent of that order — a pure function of the
arguments.  Only the relative order of exactly-tied hits can differ between
two calls. -/
theorem c2_order_independent (lex vec : List SearchHit) (top_k : Nat)
    (ord₁ ord₂ : List Nat) (h₁ : ValidOrder lex vec ord₁) (h₂ : ValidOrder lex vec ord₂)
    (hinj : ∀ a ∈ fusedIds lex vec, ∀ b ∈ fusedIds lex vec, a ≠ b →
      fusedScore lex vec a ≠ fusedScore lex vec b) :
    merge_results_rrf lex vec top_k ord₁ = merge_results_rrf lex vec top_k ord₂ := by
  have hperm : List.Perm (sortDesc (ord₁.map (fun id => (id, fusedScore lex vec id))))
      (sortDesc (ord₂.map (fun id => (id, fusedScore lex vec id)))) :=
    (List.perm_insertionSort rrfGe _).trans
      (((h₁.trans h₂.symm).map _).trans (List.perm_insertionSort rrfGe _).symm)
  haveI : IsAntisymm (Nat × ℚ) (fun a b => b.2 < a.2) :=
    ⟨fun _ _ hab hba => absurd hba (not_lt.mpr hab.le)⟩
  have heq : sortDesc (ord₁.map (fun id => (id, fusedScore lex vec id))) =
      sortDesc (ord₂.map (fun id => (id, fusedScore lex vec id))) :=
    List.eq_of_perm_of_sorted hperm
      (sortDesc_strict lex vec ord₁ h₁ hinj) (sortDesc_strict lex vec ord₂ h₂ hinj)
  show (takeHits lex vec (sortDesc (ord₁.map (fun id => (id, fusedScore lex vec id)))) []).take top_k =
    (takeHits lex vec (sortDesc (ord₂.map (fun id => (id, fusedScore lex vec id)))) []).take top_k
  rw [heq]

/-- Witness for `c2_order_independent` at a concrete input with two distinct
iteration orders and pairwise-distinct fused scores. -/
theorem c2_order_independent_witness :
    merge_results_rrf [{ frame_id := 5 }, { frame_id := 6 }] [] 2 [5, 6] =
      merge_results_rrf [{ frame_id := 5 }, { frame_id := 6 }] [] 2 [6, 5] := by
  refine c2_order_independent [{ frame_id := 5 }, { frame_id := 6 }] [] 2 [5, 6] [6, 5]
    (by decide) (by decide) ?_
  intro a ha b hb hab
  have ha2 : a = 5 ∨ a = 6 := by
    have : a ∈ fusedIds [{ frame_id := 5 }, { frame_id := 6 }] [] := ha
    rw [show fusedIds [{ frame_id := 5 }, { frame_id := 6 }] [] = [5, 6] from by decide] at this
    simpa using this
  have hb2 : b = 5 ∨ b = 6 := by
    have : b ∈ fusedIds [{ frame_id := 5 }, { frame_id := 6 }] [] := hb
    rw [show fusedIds [{ frame_id := 5 }, { frame_id := 6 }] [] = [5, 6] from by decide] at this
    simpa using this
  have h5 : fusedScore [{ frame_id := 5 }, { frame_id := 6 }] [] 5 = 1 / 61 := by
    norm_num [fusedScore, rrfContrib, rrfContribFrom, K]
  have h6 : fusedScore [{ frame_id := 5 }, { frame_id := 6 }] [] 6 = 1 / 62 := by
    norm_num [fusedScore, rrfContrib, rrfContribFrom, K]
  rcases ha2 with rfl | rfl <;> rcases hb2 with rfl | rfl
  · exact absurd rfl hab
  · rw [h5, h6]; norm_num
  · rw [h5, h6]; norm_num
  · exact absurd rfl hab

/-- Claim C8: no frame id appears twice in the fused output, and the output
length is at most `top_k` and at most the number of distinct frame ids across
both input lists. -/
theorem c8_dedup_and_bounds (lex vec : List SearchHit) (top_k : Nat) (ord : List Nat)
    (hv : ValidOrder lex vec ord) :
    ((merge_results_rrf lex vec top_k ord).map SearchHit.frame_id).Nodup ∧
    (merge_results_rrf lex vec top_k ord).length ≤ top_k ∧
    (merge_results_rrf lex vec top_k ord).length ≤ (fusedIds lex vec).length := by
  refine ⟨?_, ?_, ?_⟩
  · have h1 := (takeHits_ids lex vec
      (sortDesc (ord.map (fun id => (id, fusedScore lex vec id)))) []).1
    exact h1.sublist ((List.take_sublist _ _).map _)
  · exact le_trans (List.length_take_le _ _) le_rfl
  · have h1 : (merge_results_rrf lex vec top_k ord).length ≤
        (takeHits lex vec (sortDesc (ord.map (fun id => (id, fusedScore lex vec id)))) []).length :=
      (List.take_sublist _ _).length_le
    have h2 := takeHits_length_le lex vec
      (sortDesc (ord.map (fun id => (id, fusedScore lex vec id)))) []
    have h3 : (sortDesc (ord.map (fun id => (id, fusedScore lex vec id)))).length =
        (fusedIds lex vec).length := by
      rw [sortDesc, (List.perm_insertionSort rrfGe _).length_eq, List.length_map,
        hv.length_eq]
    exact le_trans h1 (le_trans h2 (le_of_eq h3))

/-- Witness for `c8_dedup_and_bounds` at a concrete input. -/
theorem c8_dedup_and_bounds_witness :
    ((merge_results_rrf [{ frame_id := 7 }] [{ frame_id := 7 }] 1 [7]).map
        SearchHit.frame_id).Nodup ∧
    (merge_results_rrf [{ frame_id := 7 }] [{ frame_id := 7 }] 1 [7]).length ≤ 1 ∧
    (merge_results_rrf [{ frame_id := 7 }] [{ frame_id := 7 }] 1 [7]).length ≤
      (fusedIds [{ frame_id := 7 }] [{ frame_id := 7 }]).length :=
  c8_dedup_and_bounds [{ frame_id := 7 }] [{ frame_id := 7 }] 1 [7] (by decide)

theorem rrfContribFrom_zero (l : List SearchHit) (id : Nat) :
    ∀ (rank : Nat), id ∉ l.map SearchHit.frame_id → rrfContribFrom l id rank = 0 := by
  induction l with
  | nil => intro rank _; rfl
  | cons a rest ih =>
    intro rank h
    rw [List.map_cons] at h
    have h1 : a.frame_id ≠ id := fun he => h (he ▸ List.mem_cons_self _ _)
    have h2 : id ∉ rest.map SearchHit.frame_id := fun hc => h (List.mem_cons_of_mem _ hc)
    show (if a.frame_id = id then 1 / (K + (rank : ℚ) + 1) else 0) +
      rrfContribFrom rest id (rank + 1) = 0
    rw [if_neg h1, ih (rank + 1) h2, add_zero]

theorem rrfContribFrom_get (l : List SearchHit) :
    ∀ (i : Nat) (hi : i < l.length) (rank : Nat), (l.map SearchHit.frame_id).Nodup →
      rrfContribFrom l ((l.get ⟨i, hi⟩).frame_id) rank =
        1 / (K + (rank : ℚ) + (i : ℚ) + 1) := by
  induction l with
  | nil => intro i hi; simp at hi
  | cons a rest ih =>
    intro i hi rank hnd
    rw [List.map_cons, List.nodup_cons] at hnd
    cases i with
    | zero =>
      show (if a.frame_id = a.frame_id then 1 / (K + (rank : ℚ) + 1) else 0) +
        rrfContribFrom rest a.frame_id (rank + 1) = 1 / (K + (rank : ℚ) + (0 : ℚ) + 1)
      rw [if_pos rfl, rrfContribFrom_zero rest a.frame_id (rank + 1) hnd.1, add_zero]
      norm_num
    | succ j =>
      have hj : j < rest.length := Nat.lt_of_succ_lt_succ hi
      have hmem : (rest.get ⟨j, hj⟩).frame_id ∈ rest.map SearchHit.frame_id :=
        List.mem_map_of_mem SearchHit.frame_id (rest.get_mem _ _)
      have hne : a.frame_id ≠ (rest.get ⟨j, hj⟩).frame_id :=
        fun he => hnd.1 (he ▸ hmem)
      show (if a.frame_id = (rest.get ⟨j, hj⟩).frame_id then 1 / (K + (rank : ℚ) + 1) else 0) +
        rrfContribFrom rest ((rest.get ⟨j, hj⟩).frame_id) (rank + 1) =
          1 / (K + (rank : ℚ) + ((j + 1 : Nat) : ℚ) + 1)
      rw [if_neg hne, zero_add, ih j hj (rank + 1) hnd.2]
      push_cast
      ring_nf

theorem fusedScore_rank (A : List SearchHit) (hnd : (A.map SearchHit.frame_id).Nodup)
    (i : Fin A.length) :
    fusedScore A [] ((A.get i).frame_id) = 1 / (K + (i.1 : ℚ) + 1) := by
  have h0 : rrfContribFrom [] ((A.get i).frame_id) 0 = 0 := rfl
  unfold fusedScore rrfContrib
  rw [h0, add_zero]
  have : A.get i = A.get ⟨i.1, i.2⟩ := rfl
  rw [this, rrfContribFrom_get A i.1 i.2 0 hnd]
  norm_num

theorem fusedIds_single (A : List SearchHit) (hnd : (A.map SearchHit.frame_id).Nodup) :
    fusedIds A [] = A.map SearchHit.frame_id := by
  unfold fusedIds
  rw [List.append_nil, List.dedup_eq_self.mpr hnd]

theorem single_list_pairs_strict (A : List SearchHit)
    (hnd : (A.map SearchHit.frame_id).Nodup) :
    (A.map (fun h => (h.frame_id, fusedScore A [] h.frame_id))).Pairwise
      (fun a b => b.2 < a.2) := by
  rw [List.pairwise_map, List.pairwise_iff_get]
  intro i j hij
  show fusedScore A [] ((A.get j).frame_id) < fusedScore A [] ((A.get i).frame_id)
  rw [fusedScore_rank A hnd j, fusedScore_rank A hnd i]
  have hij2 : (i.1 : ℚ) < (j.1 : ℚ) := by exact_mod_cast hij
  apply one_div_lt_one_div_of_lt
  · simp only [K]
    positivity
  · simp only [K]
    linarith

/-- Claim C9 (amended): fusing with an empty second list, for a first list
whose frame ids are pairwise distinct, yields exactly the first list's hits in
their original relative order, truncated to `top_k`, with each score replaced
by its RRF score (with `A = []` this also gives `fuse([], [], k) = []`). -/
theorem c9_merge_single_list (A : List SearchHit) (top_k : Nat) (ord : List Nat)
    (hv : ValidOrder A [] ord) (hnd : (A.map SearchHit.frame_id).Nodup) :
    merge_results_rrf A [] top_k ord =
      (A.take top_k).map
        (fun h => { h with score := some (fusedScore A [] h.frame_id) }) := by
  have hTstrict := single_list_pairs_strict A hnd
  have hperm : List.Perm (sortDesc (ord.map (fun id => (id, fusedScore A [] id))))
      (A.map (fun h => (h.frame_id, fusedScore A [] h.frame_id))) := by
    refine (List.perm_insertionSort rrfGe _).trans ?_
    have h1 : List.Perm ord (A.map SearchHit.frame_id) := by
      have h2 : List.Perm ord (fusedIds A []) := hv
      rwa [fusedIds_single A hnd] at h2
    have h3 : A.map (fun h => (h.frame_id, fusedScore A [] h.frame_id)) =
        (A.map SearchHit.frame_id).map (fun id => (id, fusedScore A [] id)) := by
      rw [List.map_map]; rfl
    rw [h3]
    exact h1.map _
  have hsndT : (A.map (fun h => (h.frame_id, fusedScore A [] h.frame_id))).Pairwise
      (fun a b => a.2 ≠ b.2) := hTstrict.imp (fun hlt => ne_of_gt hlt)
  have hsndS : (sortDesc (ord.map (fun id => (id, fusedScore A [] id)))).Pairwise
      (fun a b => a.2 ≠ b.2) :=
    (hperm.pairwise_iff (fun h => h.symm)).mpr hsndT
  have hweak : (sortDesc (ord.map (fun id => (id, fusedScore A [] id)))).Pairwise rrfGe :=
    List.sorted_insertionSort rrfGe _
  have hstrict : (sortDesc (ord.map (fun id => (id, fusedScore A [] id)))).Pairwise
      (fun a b => b.2 < a.2) :=
    (hweak.and hsndS).imp (fun h => lt_of_le_of_ne h.1 h.2.symm)
  haveI : IsAntisymm (Nat × ℚ) (fun a b => b.2 < a.2) :=
    ⟨fun _ _ hab hba => absurd hba (not_lt.mpr hab.le)⟩
  have hsorteq : sortDesc (ord.map (fun id => (id, fusedScore A [] id))) =
      A.map (fun h => (h.frame_id, fusedScore A [] h.frame_id)) :=
    List.eq_of_perm_of_sorted hperm hstrict hTstrict
  have htake : takeHits A [] (A.map (fun h => (h.frame_id, fusedScore A [] h.frame_id))) [] =
      (A.map (fun h => (h.frame_id, fusedScore A [] h.frame_id))).map
        (fun p => { hitFor A [] p.1 with score := some p.2 }) := by
    apply takeHits_eq_map
    · rw [List.map_map]
      exact hnd
    · intro p _
      exact List.not_mem_nil _
    · intro p hp
      rcases List.mem_map.mp hp with ⟨h, hm, rfl⟩
      rw [List.append_nil]
      exact List.mem_map_of_mem SearchHit.frame_id hm
  show (takeHits A [] (sortDesc (ord.map (fun id => (id, fusedScore A [] id)))) []).take top_k = _
  rw [hsorteq, htake, List.map_map]
  have hmapeq : A.map ((fun p => { hitFor A [] p.1 with score := some p.2 }) ∘
      (fun h => (h.frame_id, fusedScore A [] h.frame_id))) =
      A.map (fun h => { h with score := some (fusedScore A [] h.frame_id) }) := by
    apply List.map_congr_left
    intro h hm
    show { hitFor A [] h.frame_id with score := some (fusedScore A [] h.frame_id) } =
      { h with score := some (fusedScore A [] h.frame_id) }
    have hfh : hitFor A [] h.frame_id = h := by
      rw [hitFor, firstHit, List.append_nil, findHit_self A hnd h hm]
      rfl
    rw [hfh]
  rw [hmapeq, ← List.map_take]

theorem merge_eval_dup_c9 :
    (merge_results_rrf [{ frame_id := 1 }, { frame_id := 2 }, { frame_id := 2 }] [] 3
        [1, 2]).map SearchHit.frame_id = [2, 1] := by
  norm_num [merge_results_rrf, sortDesc, List.insertionSort, List.orderedInsert,
    takeHits, firstHit, findHit, fusedScore, rrfContrib, rrfContribFrom, rrfGe, K]

/-- Claim C9 is false on the code as stated for arbitrary lists `A`: when `A`
contains the same frame id twice, the duplicated id's contributions sum, so it
can overtake an earlier id, and the output also deduplicates — with
`A = [hit 1, hit 2, hit 2]` the output is `[hit 2, hit 1]`, not `A`'s hits in
their original relative order. -/
theorem c9_counterexample : ¬ C9Statement := by
  intro h
  have h2 := h.2 [{ frame_id := 1 }, { frame_id := 2 }, { frame_id := 2 }] 3 [1, 2]
    (by decide)
  rw [merge_eval_dup_c9] at h2
  exact absurd h2 (by decide)

/-- Witness for `c9_merge_single_list` at a concrete input. -/
theorem c9_merge_single_list_witness :
    merge_results_rrf [{ frame_id := 1 }, { frame_id := 2 }] [] 1 [2, 1] =
      (([{ frame_id := 1 }, { frame_id := 2 }] : List SearchHit).take 1).map
        (fun h => { h with
          score := some (fusedScore [{ frame_id := 1 }, { frame_id := 2 }] [] h.frame_id) }) :=
  c9_merge_single_list [{ frame_id := 1 }, { frame_id := 2 }] 1 [2, 1]
    (by decide) (by decide)

theorem savePrepare_eval_c4 :
    savePrepare ["--stdin", "hello"] (" world") =
      .ok { title := none, tags := [], use_stdin := true, content := "hello world" } := by
  decide

/-- Claim C4 is false on the code: `read_to_string(&mut content)` appends the
standard input to `content`, so `save --stdin hello` with standard input
`" world"` saves `"hello world"` — the positional content is combined with the
standard input, not overridden. -/
theorem c4_counterexample : ¬ C4Statement := by
  intro h
  have h2 := h ["--stdin", "hello"] (" world")
    { title := none, tags := [], use_stdin := true, content := "hello world" }
    savePrepare_eval_c4 rfl
  exact absurd h2 (by decide)

theorem savePrepare_char (tokens : List String) (stdinText : String)
    (st0 : SaveScanState) (h0 : saveLoop tokens saveInit = .ok st0) :
    savePrepare tokens stdinText =
      if (rustTrim (if st0.use_stdin then st0.content ++ stdinText else st0.content)).isEmpty
      then .error ("No content provided")
      else .ok { st0 with
        content := if st0.use_stdin then st0.content ++ stdinText else st0.content } := by
  unfold savePrepare
  rw [h0]

/-- Claim C4 (amended): with `--stdin`, the saved content is the positional
content with the standard-input text appended; it equals exactly the
standard-input text only when no positional content token was scanned. -/
theorem c4_stdin_appends (tokens : List String) (stdinText : String)
    (st0 st : SaveScanState) (h0 : saveLoop tokens saveInit = .ok st0)
    (hu : st0.use_stdin = true) (h : savePrepare tokens stdinText = .ok st) :
    st.content = st0.content ++ stdinText := by
  rw [savePrepare_char tokens stdinText st0 h0, hu] at h
  simp only [eq_self_iff_true, if_true] at h
  by_cases he : (rustTrim (st0.content ++ stdinText)).isEmpty = true
  · rw [if_pos he] at h
    exact absurd h (by simp)
  · rw [if_neg he] at h
    have h2 := Except.ok.inj h
    rw [← h2]

/-- Witness for `c4_stdin_appends` at a concrete input. -/
theorem c4_stdin_appends_witness :
    (SaveScanState.mk none [] true ("hi")).content =
      (SaveScanState.mk none [] true ("")).content ++ "hi" :=
  c4_stdin_appends ["--stdin"] ("hi") (SaveScanState.mk none [] true (""))
    (SaveScanState.mk none [] true ("hi")) (by decide) rfl (by decide)

/-- Claim C10: the save loop stops scanning flags at the first token that is
none of `--title`, `-t`, `--tag`, `--stdin`; that token and every token after
it are joined with single spaces into the content, never parsed as flags. -/
theorem c10_content_break (p : List String) (x : String) (rest : List String)
    (st : SaveScanState) (hp : SaveFlagRun p) (hx : isSaveFlag x = false) :
    ∃ st2, saveLoop (p ++ x :: rest) st = .ok st2 ∧
      st2.content = String.intercalate (" ") (x :: rest) := by
  induction hp generalizing st with
  | nil =>
    have hxs := hx
    rw [isSaveFlag, Bool.or_eq_false_iff, Bool.or_eq_false_iff, Bool.or_eq_false_iff] at hxs
    obtain ⟨⟨⟨h1, h2⟩, h3⟩, h4⟩ := hxs
    refine ⟨{ st with content := String.intercalate (" ") (x :: rest) }, ?_, rfl⟩
    show saveLoop (x :: rest) st = _
    rw [saveLoop.eq_def]
    simp only [h1, h2, h3, h4, Bool.or_false, Bool.false_or]
    rfl
  | title v p2 _ ih =>
    rcases ih { st with title := some v } with ⟨st2, hs, hc⟩
    refine ⟨st2, ?_, hc⟩
    show saveLoop ("--title" :: v :: (p2 ++ x :: rest)) st = .ok st2
    rw [show saveLoop ("--title" :: v :: (p2 ++ x :: rest)) st =
      saveLoop (p2 ++ x :: rest) { st with title := some v } from by rw [saveLoop.eq_def]; rfl]
    exact hs
  | titleShort v p2 _ ih =>
    rcases ih { st with title := some v } with ⟨st2, hs, hc⟩
    refine ⟨st2, ?_, hc⟩
    show saveLoop ("-t" :: v :: (p2 ++ x :: rest)) st = .ok st2
    rw [show saveLoop ("-t" :: v :: (p2 ++ x :: rest)) st =
      saveLoop (p2 ++ x :: rest) { st with title := some v } from by rw [saveLoop.eq_def]; rfl]
    exact hs
  | tag v p2 _ ih =>
    rcases ih { st with tags := st.tags ++ (splitOnceEq v).toList } with ⟨st2, hs, hc⟩
    refine ⟨st2, ?_, hc⟩
    show saveLoop ("--tag" :: v :: (p2 ++ x :: rest)) st = .ok st2
    rw [show saveLoop ("--tag" :: v :: (p2 ++ x :: rest)) st =
      saveLoop (p2 ++ x :: rest) { st with tags := st.tags ++ (splitOnceEq v).toList }
      from by rw [saveLoop.eq_def]; rfl]
    exact hs
  | stdinFlag p2 _ ih =>
    rcases ih { st with use_stdin := true } with ⟨st2, hs, hc⟩
    refine ⟨st2, ?_, hc⟩
    show saveLoop ("--stdin" :: (p2 ++ x :: rest)) st = .ok st2
    rw [show saveLoop ("--stdin" :: (p2 ++ x :: rest)) st =
      saveLoop (p2 ++ x :: rest) { st with use_stdin := true } from by rw [saveLoop.eq_def]; rfl]
    exact hs

/-- Witness for `c10_content_break`: after `--title T`, a later `--title` is
swallowed into the content verbatim. -/
theorem c10_content_break_witness :
    ∃ st2, saveLoop (["--title", "T"] ++ "hello" :: ["--title", "Z"]) saveInit = .ok st2 ∧
      st2.content = String.intercalate (" ") ("hello" :: ["--title", "Z"]) :=
  c10_content_break ["--title", "T"] "hello" ["--title", "Z"] saveInit
    (SaveFlagRun.title ("T") [] SaveFlagRun.nil) (by decide)

theorem expandTilde_char (home : Option (List Char)) (p : List Char) :
    expandTilde p (homeOr home) =
      (if p.head? = some '~' then homeOr home ++ p.tail else p) := by
  cases p with
  | nil => rfl
  | cons c rest =>
    by_cases hc : c = '~'
    · subst hc
      simp [expandTilde, replacen1]
    · simp [expandTilde, replacen1, hc]

/-- Claim C6: the resolved store path equals the highest-priority source
present — `--memory` override, then `MEMVID_MEMORY`, then
`<home>/.memvid/claude.mv2` — and a value beginning with `~` has only that
leading occurrence replaced by the home directory, with `.` standing in when
the home directory cannot be determined. -/
theorem c6_path_precedence (cliOverride envVal home : Option (List Char)) :
    resolveStorePath cliOverride envVal home = specResolveStorePath cliOverride envVal home := by
  cases cliOverride with
  | some p =>
    show expandTilde p (homeOr home) = _
    rw [expandTilde_char home p]
    rfl
  | none =>
    cases envVal with
    | some p =>
      show expandTilde p (homeOr home) = _
      rw [expandTilde_char home p]
      rfl
    | none => rfl

theorem store10_exact : ExactRecords store10 10 := by
  refine ⟨rfl, fun id => ?_⟩
  constructor
  · intro hok
    by_contra hlt
    push_neg at hlt
    have hnone : (List.replicate 10 ({} : Frame)).get? id = none :=
      List.get?_eq_none.mpr (by simpa using hlt)
    have : store10.frame_by_id id = .error ("frame not found") := by
      show (match (List.replicate 10 ({} : Frame)).get? id with
        | some f => Except.ok f
        | none => Except.error ("frame not found")) = _
      rw [hnone]
    rw [this] at hok
    simp [Except.isOk, Except.toBool] at hok
  · intro hlt
    have hlt2 : id < (List.replicate 10 ({} : Frame)).length := by simpa using hlt
    have hsome := List.get?_eq_get hlt2
    show (match (List.replicate 10 ({} : Frame)).get? id with
      | some f => Except.ok f
      | none => Except.error ("frame not found")).isOk = true
    rw [hsome]
    rfl

/-- Claim C3 is false on the code: `cmd_inspect` prints the not-found error
and returns `Ok(())`, so `main` exits with code 0, not 1. -/
theorem c3_counterexample : ¬ C3Statement := by
  intro h
  have h2 := (h store10 store10_exact).2
  rw [show inspectExitCode store10 999 = Except.ok 0 from rfl] at h2
  exact absurd (Except.ok.inj h2) (by decide)

/-- Claim C3 (amended): on a store with exactly 10 records, `inspect 999`
reports a not-found error for the frame and does not crash, and the process
exits with code 0 (the not-found case is handled output, not a failure). -/
theorem c3_inspect_not_found (s : StoreModel) (h : ExactRecords s 10) :
    (∃ e, cmd_inspect s 999 = .ok (.notFound 999 e)) ∧ inspectExitCode s 999 = .ok 0 := by
  have h999 : ¬ (s.frame_by_id 999).isOk = true := fun hok =>
    absurd ((h.2 999).mp hok) (by decide)
  obtain ⟨e, he⟩ : ∃ e, s.frame_by_id 999 = .error e := by
    cases hfb : s.frame_by_id 999 with
    | ok f => rw [hfb] at h999; exact absurd rfl h999
    | error e => exact ⟨e, rfl⟩
  constructor
  · refine ⟨e, ?_⟩
    unfold cmd_inspect
    rw [he]
  · unfold inspectExitCode cmd_inspect
    rw [he]
    rfl

/-- Witness for `c3_inspect_not_found` on a concrete 10-record store. -/
theorem c3_inspect_not_found_witness :
    (∃ e, cmd_inspect store10 999 = .ok (.notFound 999 e)) ∧
      inspectExitCode store10 999 = .ok 0 :=
  c3_inspect_not_found store10 store10_exact

/-- Claim C5 names a real bug: `cmd_list_recent` truncates a long title with
`&title_preview[..40]`, and byte 40 of `badTitle` falls inside a two-byte
character, so Rust panics ("byte index 40 is not a char boundary") and the
panic aborts the whole listing instead of reporting that record and
continuing. -/
theorem c5_title_slice_panics :
    cmd_list_recent badListStore 20 = .error Panic.sliceNotCharBoundary := by
  decide

/-- The same listing with a one-byte character at the boundary works, showing
the abort in `c5_title_slice_panics` is caused by the slice itself. -/
theorem c5_title_slice_ok :
    cmd_list_recent (storeOfFrames [{ title := some (List.replicate 41 'a') }]) 20 =
      .ok [ListLine.entry 0 false false (List.replicate 40 'a')] := by
  decide

theorem embedLoop_eq (provider : Nat → String → Option α) :
    ∀ tasks : List (Nat × String),
      embedLoop provider tasks = (succBatch provider tasks, failedIds provider tasks) := by
  intro tasks
  induction tasks with
  | nil => rfl
  | cons t rest ih =>
    cases hp : provider t.1 t.2 with
    | some e =>
      simp [embedLoop, ih, succBatch, failedIds, hp, List.filterMap_cons, List.filter_cons]
    | none =>
      simp [embedLoop, ih, succBatch, failedIds, hp, List.filterMap_cons, List.filter_cons]

theorem succBatch_length (provider : Nat → String → Option α) :
    ∀ tasks : List (Nat × String),
      (succBatch provider tasks).length =
        tasks.countP (fun t => (provider t.1 t.2).isSome) := by
  intro tasks
  induction tasks with
  | nil => rfl
  | cons t rest ih =>
    cases hp : provider t.1 t.2 with
    | some e =>
      simp [succBatch, List.filterMap_cons, hp, List.countP_cons] at ih ⊢
      exact ih
    | none =>
      simp [succBatch, List.filterMap_cons, hp, List.countP_cons] at ih ⊢
      exact ih

theorem countP_some_add_none (provider : Nat → String → Option α) :
    ∀ tasks : List (Nat × String),
      tasks.countP (fun t => (provider t.1 t.2).isSome) +
        tasks.countP (fun t => (provider t.1 t.2).isNone) = tasks.length := by
  intro tasks
  induction tasks with
  | nil => rfl
  | cons t rest ih =>
    cases hp : provider t.1 t.2 with
    | some e => simp [List.countP_cons, hp]; omega
    | none => simp [List.countP_cons, hp]; omega

/-- Claim C7 is false on the code at `N = 1`: when the single pending task
fails, the batch is empty, so `cmd_embed_all` returns early — no batch is
submitted and no commit is issued at all. -/
theorem c7_counterexample : ¬ C7Statement := by
  intro h
  have h2 := (h Unit (fun _ _ => none) [(0, "x")] (by decide)).2
  rw [show (cmd_embed_all_run (fun _ _ => (none : Option Unit)) [(0, "x")]).calls = []
    from rfl] at h2
  exact List.cons_ne_nil _ _ h2.symm

/-- Claim C7 (amended): with at least two pending tasks and the provider
failing on exactly one, the run reports the failing frame id, submits the
other `N - 1` embeddings as one single batch, and issues exactly one commit
after the batch write; with `N = 1` the run instead ends with no store call. -/
theorem c7_one_failure_run (α : Type) (provider : Nat → String → Option α)
    (tasks : List (Nat × String))
    (hone : tasks.countP (fun t => (provider t.1 t.2).isNone) = 1)
    (hlen : 2 ≤ tasks.length) :
    (cmd_embed_all_run provider tasks).failures = failedIds provider tasks ∧
    (cmd_embed_all_run provider tasks).calls =
      [StoreCall.addEmbeddings (succBatch provider tasks), StoreCall.commit] ∧
    (succBatch provider tasks).length = tasks.length - 1 := by
  have hsucc : (succBatch provider tasks).length = tasks.length - 1 := by
    have h1 := countP_some_add_none provider tasks
    rw [hone] at h1
    rw [succBatch_length]
    omega
  have hne : tasks.isEmpty = false := by
    cases tasks with
    | nil => simp at hlen
    | cons t rest => rfl
  have hbne : (succBatch provider tasks).isEmpty = false := by
    have h2 : 1 ≤ (succBatch provider tasks).length := by omega
    cases hsb : succBatch provider tasks with
    | nil => rw [hsb] at h2; simp at h2
    | cons b bs => rfl
  unfold cmd_embed_all_run
  rw [embedLoop_eq provider tasks]
  simp only [hne, Bool.false_eq_true, if_false, hbne]
  exact ⟨trivial, trivial, hsucc⟩

/-- Witness for `c7_one_failure_run`: two pending tasks, the provider failing
on frame 0 only. -/
theorem c7_one_failure_run_witness :
    (cmd_embed_all_run (fun i _ => if i == 0 then (none : Option Unit) else some ())
        [(0, "a"), (1, "b")]).failures =
      failedIds (fun i _ => if i == 0 then (none : Option Unit) else some ())
        [(0, "a"), (1, "b")] ∧
    (cmd_embed_all_run (fun i _ => if i == 0 then (none : Option Unit) else some ())
        [(0, "a"), (1, "b")]).calls =
      [StoreCall.addEmbeddings (succBatch
        (fun i _ => if i == 0 then (none : Option Unit) else some ()) [(0, "a"), (1, "b")]),
       StoreCall.commit] ∧
    (succBatch (fun i _ => if i == 0 then (none : Option Unit) else some ())
        [(0, "a"), (1, "b")]).length = ([(0, "a"), (1, "b")] : List (Nat × String)).length - 1 :=
  c7_one_failure_run Unit (fun i _ => if i == 0 then (none : Option Unit) else some ())
    [(0, "a"), (1, "b")] (by decide) (by decide)
